import Mathlib

/-!
# StashKit — shallow embedding of `src/index.ts`

StashKit is a namespaced, TTL-aware key/value layer over a synchronous
string-keyed storage backend.  This file embeds the library's core
(`encode`/`decode`/`isExpired`/`makeKey`/`normalizeNamespace`, the store
operations `get`/`set`/`remove`/`clear`, and the backend resolver
`isStorageUsable`/`resolveStorage`) and proves the specification's testable
properties about it.

Modelling conventions:
* JS numbers are modelled as integers (`Int`); every number the library
  manipulates — `Date.now()` epoch milliseconds and `ttl * 1000` — is integral.
* A backend string is classified by how `JSON.parse` treats it:
  `Raw.json j` stands for any string that parses to the JSON value `j`,
  `Raw.junk s` for a string `s` that `JSON.parse` rejects.  `JSON.stringify`
  produces a parseable, non-empty string, so the default serializer is
  `Raw.json` and the default deserializer recovers `j` from `Raw.json j`.
* The current time is threaded explicitly (`now : Int`) where the source
  calls `getNow()`.
* A usable map-like backend (the library's `MemoryStorage`, a `Map` keeping
  insertion order) is an association list without duplicate-key insertion.
-/

namespace StashKit

/-- JSON values: the serializable inputs and the parse trees of stored
strings. -/
inductive Json where
  | null
  | bool (b : Bool)
  | num (n : Int)
  | str (s : String)
  | arr (elems : List Json)
  | obj (fields : List (String × Json))

/-- A JS runtime value as seen by the store's untyped field accesses:
either `undefined` or a JSON-representable value (JS `null` is
`JsValue.val Json.null`). -/
inductive JsValue where
  | undef
  | val (j : Json)

/-- JS truthiness (`ToBoolean`) of a JSON-representable value. -/
def Json.truthy : Json → Bool
  | .null => false
  | .bool b => b
  | .num n => n != 0
  | .str s => s != ""
  | .arr _ => true
  | .obj _ => true

/-- JS truthiness of a runtime value (`undefined` is falsy). -/
def JsValue.truthy : JsValue → Bool
  | .undef => false
  | .val j => j.truthy

/-- JS property access `o[name]`: a field lookup on objects, `undefined`
on objects missing the field and on non-objects.  (Parsed JSON objects
never carry duplicate keys, so first-match lookup is exact.) -/
def Json.getField : Json → String → JsValue
  | .obj fields, name =>
      match fields.lookup name with
      | some v => .val v
      | none => .undef
  | _, _ => .undef

mutual

/-- JS `ToString` on JSON-representable values (arrays join their elements
with commas, objects print as `[object Object]`). -/
def Json.jsToString : Json → String
  | .null => "null"
  | .bool b => cond b "true" "false"
  | .num n => toString n
  | .str s => s
  | .arr l => jsJoin l
  | .obj _ => "[object Object]"

/-- One array element under `Array.prototype.join`: `null` prints empty. -/
def jsJoinElem : Json → String
  | .null => ""
  | .bool b => (Json.bool b).jsToString
  | .num n => (Json.num n).jsToString
  | .str s => (Json.str s).jsToString
  | .arr l => (Json.arr l).jsToString
  | .obj f => (Json.obj f).jsToString

/-- JS `Array.prototype.join` with the default comma separator. -/
def jsJoin : List Json → String
  | [] => ""
  | [x] => jsJoinElem x
  | x :: xs => jsJoinElem x ++ "," ++ jsJoin xs

end

/-- Accumulate a decimal digit string into a natural number. -/
def digitsVal (cs : List Char) : Nat :=
  cs.foldl (fun n c => n * 10 + (c.toNat - 48)) 0

/-- JS `ToNumber` on a string, restricted to the integral numeric literals
this model uses (optionally signed decimal integers; whitespace-trimmed;
empty means `0`); `none` models `NaN`. -/
def strToNumber (s : String) : Option Int :=
  let t := s.trim
  if t = "" then some 0
  else
    match t.toList with
    | '-' :: rest =>
        if rest ≠ [] ∧ rest.all Char.isDigit then some (-(digitsVal rest : Int)) else none
    | '+' :: rest =>
        if rest ≠ [] ∧ rest.all Char.isDigit then some (digitsVal rest : Int) else none
    | cs =>
        if cs.all Char.isDigit then some (digitsVal cs : Int) else none

/-- JS `ToNumber` on a JSON-representable value; `none` models `NaN`. -/
def Json.jsToNumber : Json → Option Int
  | .null => some 0
  | .bool b => some (cond b 1 0)
  | .num n => some n
  | .str s => strToNumber s
  | .arr l => strToNumber (jsJoin l)
  | .obj _ => none

/-- JS `x <= t` where `t` is a number: numeric comparison, false when
`ToNumber(x)` is `NaN`. -/
def jsLeNum (x : Json) (t : Int) : Bool :=
  match x.jsToNumber with
  | some n => decide (n ≤ t)
  | none => false

/-- A backend string, classified by whether `JSON.parse` accepts it:
`json j` is any string parsing to `j`; `junk s` is a string rejected by
`JSON.parse`. -/
inductive Raw where
  | json (j : Json)
  | junk (s : String)

/-- JS string falsiness: only the empty string is falsy, and a string
produced by `JSON.stringify` is never empty. -/
def Raw.falsy : Raw → Bool
  | .json _ => false
  | .junk s => s == ""

/-- The stored envelope `{ value, expiresAt? }` (`StoredPayload` in
`src/index.ts`); `expiresAt` is an absolute epoch-millisecond deadline. -/
structure StoredPayload where
  value : Json
  expiresAt : Option Int

/-- The JS object literal `encode` builds: field `value` first, then
`expiresAt` when present. -/
def StoredPayload.toJson (p : StoredPayload) : Json :=
  .obj (("value", p.value) ::
    (match p.expiresAt with
     | some e => [("expiresAt", .num e)]
     | none => []))

/-- Payload construction of `encode` (src/index.ts:121–129): stamps
`expiresAt = getNow() + ttlSeconds * 1000` exactly when `ttlSeconds` is
truthy and `> 0` (`if (ttlSeconds && ttlSeconds > 0)`). -/
def encodePayload (value : Json) (ttlSeconds : Option Int) (now : Int) : StoredPayload :=
  { value := value
    expiresAt :=
      match ttlSeconds with
      | some t => if t ≠ 0 ∧ 0 < t then some (now + t * 1000) else none
      | none => none }

/-- The default serializer `JSON.stringify`: its output is a parseable
non-empty string, identified with its parse tree. -/
def jsonStringify (j : Json) : Raw := .json j

/-- The default deserializer `JSON.parse`: recovers the parse tree of a
parseable string, throws (`Except.error`) on junk. -/
def jsonParse : Raw → Except Unit Json
  | .json j => .ok j
  | .junk _ => .error ()

/-- The function `decode` (src/index.ts:131–141): falsy raw (absent entry or empty
string) yields JS `null`; a deserializer exception is caught and yields
`null`; otherwise the parsed value is returned unvalidated (the source
casts it to `StoredPayload` without a shape check). -/
def decode (deserialize : Raw → Except Unit Json) (raw : Option Raw) : Json :=
  match raw with
  | none => .null
  | some r =>
      if r.falsy then .null
      else
        match deserialize r with
        | .ok j => j
        | .error _ => .null

/-- The function `isExpired` (src/index.ts:143–153): falsy payload or falsy
`payload.expiresAt` (absent, `0`, …) means not expired; otherwise expired
iff `payload.expiresAt <= getNow()`. -/
def isExpired (payload : Json) (now : Int) : Bool :=
  if ¬ payload.truthy then false
  else
    match payload.getField "expiresAt" with
    | .undef => false
    | .val e => if ¬ e.truthy then false else jsLeNum e now

/-! ## The usable map-like backend

`MemoryStorage` (src/index.ts:10–37) wraps a JS `Map`: insertion-ordered,
`set` updates an existing key in place and otherwise appends, `delete`
removes, `key(i)` enumerates keys in order.  Any usable backend behaves as
such a map at the granularity the store observes. -/

/-- The backend contents: an insertion-ordered association list. -/
abbrev MemStore := List (String × Raw)

/-- Backend `getItem`: first (and only) binding of the key, if any. -/
def memGet : MemStore → String → Option Raw
  | [], _ => none
  | p :: rest, k => if p.1 = k then some p.2 else memGet rest k

/-- Backend `setItem` (JS `Map.set`): update an existing binding in place, else
append at the end. -/
def memSet : MemStore → String → Raw → MemStore
  | [], k, v => [(k, v)]
  | p :: rest, k, v => if p.1 = k then (k, v) :: rest else p :: memSet rest k v

/-- Backend `removeItem` (JS `Map.delete`): drop the binding of the key,
preserving the order of the others. -/
def memRemove : MemStore → String → MemStore
  | [], _ => []
  | p :: rest, k => if p.1 = k then memRemove rest k else p :: memRemove rest k

/-- The key list, as enumerated by `length` and `key(i)`. -/
def memKeys (b : MemStore) : List String := b.map (·.1)

/-! ## Store construction and operations -/

/-- Separator stripping of `normalizeNamespace` (src/index.ts:112–117): a falsy namespace
(absent or empty) collapses to the default `"lsp"`; otherwise trailing
separator characters are stripped (`namespace.replace(/:+$/, "")`). -/
def stripTrailingColons (s : String) : String :=
  String.mk (s.toList.reverse.dropWhile (· == ':')).reverse

/-- The function `normalizeNamespace` itself. -/
def normalizeNamespace : Option String → String
  | none => "lsp"
  | some s => if s = "" then "lsp" else stripTrailingColons s

/-- The function `makeKey` (src/index.ts:119): the derived StorageKey
`` `${namespace}:${key}` ``. -/
def makeKey (ns key : String) : String := ns ++ ":" ++ key

/-- The per-call options of `set`. -/
structure SetOptions where
  ttl : Option Int

/-- The configuration a constructed store closes over: the normalized
namespace and the configured default TTL. -/
structure Config where
  ns : String
  defaultTTL : Option Int

/-- The mutable state a store acts on: the shared backend and this
instance's `trackedKeys` set (insertion-ordered, as a JS `Set`). -/
structure StoreState where
  backend : MemStore
  tracked : List String

/-- Set insertion `trackedKeys.add`: insert if absent, keeping insertion order. -/
def trackedAdd (t : List String) (k : String) : List String :=
  if t.contains k then t else t ++ [k]

/-- Set deletion `trackedKeys.delete`. -/
def trackedDelete (t : List String) (k : String) : List String :=
  t.filter (fun x => x != k)

/-- The effective TTL of a `set` call (src/index.ts:203):
`setOptions?.ttl ?? defaultTTL` — a provided `ttl` (even `0` or negative)
overrides the default. -/
def effectiveTTL (setOptions : Option SetOptions) (defaultTTL : Option Int) : Option Int :=
  match setOptions.bind SetOptions.ttl with
  | some t => some t
  | none => defaultTTL

/-- The operation `store.get` (src/index.ts:182–199): decode the raw entry at the
derived StorageKey; an expired payload is lazily deleted (backend and
TrackedKeys) and `null` returned; a falsy payload is `null` (dropping the
key from TrackedKeys); otherwise the key is (re-)tracked and
`payload.value` returned. -/
def Store.get (cfg : Config) (deserialize : Raw → Except Unit Json)
    (st : StoreState) (now : Int) (key : String) : JsValue × StoreState :=
  let storageKey := makeKey cfg.ns key
  let payload := decode deserialize (memGet st.backend storageKey)
  if isExpired payload now then
    (.val .null, ⟨memRemove st.backend storageKey, trackedDelete st.tracked storageKey⟩)
  else if ¬ payload.truthy then
    (.val .null, ⟨st.backend, trackedDelete st.tracked storageKey⟩)
  else
    (payload.getField "value", ⟨st.backend, trackedAdd st.tracked storageKey⟩)

/-- The operation `store.set` (src/index.ts:201–206) with a total serializer: write the
encoded payload at the derived StorageKey and track the key. -/
def Store.set (cfg : Config) (serialize : Json → Raw) (st : StoreState)
    (now : Int) (key : String) (value : Json) (setOptions : Option SetOptions) :
    StoreState :=
  let storageKey := makeKey cfg.ns key
  let ttl := effectiveTTL setOptions cfg.defaultTTL
  ⟨memSet st.backend storageKey (serialize (encodePayload value ttl now).toJson),
   trackedAdd st.tracked storageKey⟩

/-- The operation `store.set` with a serializer that may throw: the exception from
`serialize` propagates (first component `some e`) before `setItem` runs
and before the key is tracked, so the state is returned unchanged. -/
def Store.setFallible (cfg : Config) (serialize : Json → Except String Raw)
    (st : StoreState) (now : Int) (key : String) (value : Json)
    (setOptions : Option SetOptions) : Option String × StoreState :=
  let storageKey := makeKey cfg.ns key
  let ttl := effectiveTTL setOptions cfg.defaultTTL
  match serialize (encodePayload value ttl now).toJson with
  | .error e => (some e, st)
  | .ok raw => (none, ⟨memSet st.backend storageKey raw, trackedAdd st.tracked storageKey⟩)

/-- The operation `store.remove` (src/index.ts:208–212). -/
def Store.remove (cfg : Config) (st : StoreState) (key : String) : StoreState :=
  let storageKey := makeKey cfg.ns key
  ⟨memRemove st.backend storageKey, trackedDelete st.tracked storageKey⟩

/-- JS `String.prototype.startsWith`, character-wise: the marker is a
prefix of the key's character sequence. -/
def strStartsWith (s pre : String) : Bool :=
  pre.toList.isPrefixOf s.toList

/-- The operation `store.clear` (src/index.ts:214–232).  With an indexed key accessor
(`storage.key`), the backend's keys are snapshotted, filtered by the
namespace marker `` `${namespace}:` `` (the loop also requires a truthy,
i.e. non-empty, key), and each collected key removed; TrackedKeys is not
touched on this path.  Without an accessor, every tracked key is removed
and TrackedKeys emptied. -/
def Store.clear (cfg : Config) (hasKeyAccessor : Bool) (st : StoreState) : StoreState :=
  if ¬ hasKeyAccessor then
    ⟨st.tracked.foldl memRemove st.backend, []⟩
  else
    let keysToRemove :=
      (memKeys st.backend).filter (fun k => (k != "") && strStartsWith k (cfg.ns ++ ":"))
    ⟨keysToRemove.foldl memRemove st.backend, st.tracked⟩

/-! ## Backend resolution -/

/-- The reserved probe key (src/index.ts:39). -/
def TEST_KEY : String := "__lsp_probe__"

/-- A candidate backend whose `setItem`/`removeItem` may throw: `none`
models a thrown exception, `some` the post-call backend state. -/
structure FStorage (σ : Type) where
  setItem : σ → String → String → Option σ
  removeItem : σ → String → Option σ

/-- The probe of `isStorageUsable` (src/index.ts:69–77): write `"1"` at
the probe key, then remove it; the resulting state if neither call
throws. -/
def probeRun {σ : Type} (f : FStorage σ) (s : σ) : Option σ :=
  (f.setItem s TEST_KEY "1").bind (fun s' => f.removeItem s' TEST_KEY)

/-- The function `isStorageUsable`: true exactly when the probe completes. -/
def isStorageUsable {σ : Type} (f : FStorage σ) (s : σ) : Bool :=
  (probeRun f s).isSome

/-- The backend a store ends up bound to: the probed candidate, or a
fresh in-memory substitute. -/
inductive Resolved (σ : Type) where
  | original (s : σ)
  | memory (m : MemStore)

/-- The function `resolveStorage` (src/index.ts:155–163): keep the candidate (in its
post-probe state) when usable, else substitute a fresh empty in-memory
backend; the flag is `usedMemoryFallback`. -/
def resolveStorage {σ : Type} (f : FStorage σ) (s : σ) : Resolved σ × Bool :=
  match probeRun f s with
  | some s' => (.original s', false)
  | none => (.memory [], true)

/-- Whether a raw backend string is a valid serialization of a
`StoredPayload` — i.e. has exactly the shape `encode` produces. -/
def isValidPayloadRaw : Raw → Bool
  | .json (.obj [("value", _)]) => true
  | .json (.obj [("value", _), ("expiresAt", .num _)]) => true
  | _ => false

/-! ## Backend lemmas -/

theorem memGet_memSet_self (b : MemStore) (k : String) (v : Raw) :
    memGet (memSet b k v) k = some v := by
  induction b with
  | nil => simp [memSet, memGet]
  | cons p rest ih =>
      by_cases h : p.1 = k
      · simp [memSet, h, memGet]
      · simp [memSet, h, memGet, ih]

theorem memGet_memSet_ne (b : MemStore) (k k' : String) (v : Raw) (h : k' ≠ k) :
    memGet (memSet b k v) k' = memGet b k' := by
  induction b with
  | nil => simp [memSet, memGet, Ne.symm h]
  | cons p rest ih =>
      by_cases hp : p.1 = k
      · subst hp
        simp [memSet, memGet, Ne.symm h]
      · simp [memSet, hp, memGet, ih]

theorem memGet_memRemove_self (b : MemStore) (k : String) :
    memGet (memRemove b k) k = none := by
  induction b with
  | nil => rfl
  | cons p rest ih =>
      by_cases h : p.1 = k
      · simpa [memRemove, h] using ih
      · simpa [memRemove, h, memGet] using ih

theorem memGet_memRemove_ne (b : MemStore) (k k' : String) (h : k' ≠ k) :
    memGet (memRemove b k) k' = memGet b k' := by
  induction b with
  | nil => rfl
  | cons p rest ih =>
      by_cases hp : p.1 = k
      · have hne : p.1 ≠ k' := by rw [hp]; exact Ne.symm h
        simp [memRemove, hp, memGet, hne, Ne.symm h, ih]
      · simp [memRemove, hp, memGet, ih]

theorem memGet_foldl_memRemove (keys : List String) (b : MemStore) (k : String)
    (h : k ∉ keys) : memGet (keys.foldl memRemove b) k = memGet b k := by
  induction keys generalizing b with
  | nil => rfl
  | cons x xs ih =>
      simp only [List.mem_cons, not_or] at h
      rw [List.foldl_cons, ih _ h.2, memGet_memRemove_ne _ _ _ h.1]

/-! ## Payload lemmas -/

theorem toJson_truthy (p : StoredPayload) : p.toJson.truthy = true := rfl

theorem getField_value (p : StoredPayload) :
    p.toJson.getField "value" = .val p.value := by
  simp [StoredPayload.toJson, Json.getField, List.lookup]

theorem getField_expiresAt (p : StoredPayload) :
    p.toJson.getField "expiresAt" =
      (match p.expiresAt with
       | some e => JsValue.val (.num e)
       | none => JsValue.undef) := by
  have hne : ("expiresAt" == "value") = false := by decide
  cases hp : p.expiresAt <;>
    simp [StoredPayload.toJson, Json.getField, List.lookup, hne, hp]

theorem isExpired_toJson (p : StoredPayload) (now : Int) :
    isExpired p.toJson now =
      (match p.expiresAt with
       | some e => (e != 0) && decide (e ≤ now)
       | none => false) := by
  rw [isExpired, getField_expiresAt]
  cases hp : p.expiresAt with
  | none => simp [toJson_truthy]
  | some e =>
      by_cases he : e = 0
      · subst he
        simp [StoredPayload.toJson, Json.truthy, hp]
      · simp [StoredPayload.toJson, Json.truthy, hp, he, jsLeNum, Json.jsToNumber]

theorem decode_stringify (j : Json) :
    decode jsonParse (some (jsonStringify j)) = j := rfl

/-! ## Store operation lemmas -/

theorem get_stored (cfg : Config) (st : StoreState) (now : Int) (key : String)
    (p : StoredPayload)
    (h : memGet st.backend (makeKey cfg.ns key) = some (jsonStringify p.toJson)) :
    Store.get cfg jsonParse st now key =
      if isExpired p.toJson now then
        (.val .null, ⟨memRemove st.backend (makeKey cfg.ns key),
                      trackedDelete st.tracked (makeKey cfg.ns key)⟩)
      else (.val p.value, ⟨st.backend, trackedAdd st.tracked (makeKey cfg.ns key)⟩) := by
  rw [Store.get]
  simp only [h, decode_stringify]
  by_cases hexp : isExpired p.toJson now
  · simp [hexp]
  · simp [hexp, toJson_truthy, getField_value]

theorem isExpired_encode_now (value : Json) (ttl : Option Int) (now : Int) :
    isExpired (encodePayload value ttl now).toJson now = false := by
  rw [isExpired_toJson]
  cases ttl with
  | none => rfl
  | some t =>
      by_cases h : t ≠ 0 ∧ 0 < t
      · have hlt : ¬ (now + t * 1000 ≤ now) := by omega
        simp [encodePayload, h, hlt]
      · simp [encodePayload, h]

theorem set_backend (cfg : Config) (serialize : Json → Raw) (st : StoreState)
    (now : Int) (key : String) (value : Json) (setOptions : Option SetOptions) :
    (Store.set cfg serialize st now key value setOptions).backend =
      memSet st.backend (makeKey cfg.ns key)
        (serialize (encodePayload value (effectiveTTL setOptions cfg.defaultTTL) now).toJson) := rfl

/-- A `set` then an immediate `get` of the same key, at the same clock
reading, yields the value back — for any configuration and prior state. -/
theorem set_get_same_time (cfg : Config) (st : StoreState) (now : Int)
    (key : String) (value : Json) (setOptions : Option SetOptions) :
    (Store.get cfg jsonParse
        (Store.set cfg jsonStringify st now key value setOptions) now key).fst
      = .val value := by
  have hmem : memGet (Store.set cfg jsonStringify st now key value setOptions).backend
      (makeKey cfg.ns key) =
      some (jsonStringify
        (encodePayload value (effectiveTTL setOptions cfg.defaultTTL) now).toJson) := by
    rw [set_backend, memGet_memSet_self]
  rw [get_stored cfg _ now key _ hmem, isExpired_encode_now]
  simp [encodePayload]

theorem encode_pos_ttl (value : Json) (T now : Int) (hT : 0 < T) :
    encodePayload value (some T) now = ⟨value, some (now + T * 1000)⟩ := by
  simp only [encodePayload]
  rw [if_pos ⟨by omega, hT⟩]

theorem isValidPayloadRaw_encode (p : StoredPayload) :
    isValidPayloadRaw (jsonStringify p.toJson) = true := by
  cases hp : p.expiresAt <;> simp [jsonStringify, StoredPayload.toJson, hp, isValidPayloadRaw]

theorem decode_junk (s : String) :
    decode jsonParse (some (.junk s)) = .null := by
  unfold decode Raw.falsy jsonParse
  by_cases h : s == "" <;> simp [h]

/-! ## Claims -/

/-- C1: for every serializable value `v` and key `k`, on a store with a
usable backend and the default JSON codec, `set(k, v)` followed
immediately (no clock advance) by `get(k)` returns a value structurally
equal to `v` — for any namespace, default TTL and prior state. -/
theorem C1_set_get_roundtrip (cfg : Config) (st : StoreState) (now : Int)
    (key : String) (value : Json) :
    (Store.get cfg jsonParse
        (Store.set cfg jsonStringify st now key value none) now key).fst
      = .val value :=
  set_get_same_time cfg st now key value none

/-- C2 counterexample: write with `ttl = 1` at clock reading `-1000` ms,
so the installed deadline is `0`; at time `0` (which is `t0 + T*1000`) the
claim demands `null`, but `isExpired` treats the falsy deadline `0` as "no
expiry" and `get` still returns the value. -/
theorem C2_zero_deadline_counterexample :
    (Store.get ⟨"lsp", none⟩ jsonParse
        (Store.set ⟨"lsp", none⟩ jsonStringify ⟨[], []⟩ (-1000) "k" (.str "v")
          (some ⟨some 1⟩)) 0 "k").fst = .val (.str "v")
    ∧ (Store.get ⟨"lsp", none⟩ jsonParse
        (Store.set ⟨"lsp", none⟩ jsonStringify ⟨[], []⟩ (-1000) "k" (.str "v")
          (some ⟨some 1⟩)) 0 "k").fst ≠ .val .null :=
  ⟨rfl, fun h => Json.noConfusion (JsValue.val.inj h)⟩

/-- C2 amended: after `set(k, v, { ttl: T })` with `T > 0` at time `t0`,
`get(k)` strictly before `t0 + T*1000` returns `v`; at `t0 + T*1000` or
later it returns `null`, provided the deadline `t0 + T*1000` is nonzero
(a zero deadline is falsy and treated by the code as "no expiry"). -/
theorem C2_ttl_expiry_boundary (cfg : Config) (st : StoreState)
    (t0 T : Int) (hT : 0 < T) (key : String) (value : Json) (t : Int) :
    (t < t0 + T * 1000 →
      (Store.get cfg jsonParse
        (Store.set cfg jsonStringify st t0 key value (some ⟨some T⟩)) t key).fst
        = .val value)
    ∧ (t0 + T * 1000 ≤ t → t0 + T * 1000 ≠ 0 →
      (Store.get cfg jsonParse
        (Store.set cfg jsonStringify st t0 key value (some ⟨some T⟩)) t key).fst
        = .val .null) := by
  have heff : effectiveTTL (some ⟨some T⟩) cfg.defaultTTL = some T := rfl
  have hmem : memGet
      (Store.set cfg jsonStringify st t0 key value (some ⟨some T⟩)).backend
      (makeKey cfg.ns key) =
      some (jsonStringify (StoredPayload.mk value (some (t0 + T * 1000))).toJson) := by
    rw [set_backend, heff, encode_pos_ttl value T t0 hT, memGet_memSet_self]
  have hget := get_stored cfg _ t key _ hmem
  have hexp : isExpired (StoredPayload.mk value (some (t0 + T * 1000))).toJson t
      = ((t0 + T * 1000 != 0) && decide (t0 + T * 1000 ≤ t)) := by
    rw [isExpired_toJson]
  constructor
  · intro hlt
    have hf : ((t0 + T * 1000 != 0) && decide (t0 + T * 1000 ≤ t)) = false := by
      simp only [Bool.and_eq_false_iff, bne_eq_false_iff_eq, decide_eq_false_iff_not]
      omega
    rw [hget]
    simp [hexp, hf]
  · intro hge hnz
    have ht : ((t0 + T * 1000 != 0) && decide (t0 + T * 1000 ≤ t)) = true := by
      simp [hnz, hge]
    rw [hget]
    simp [hexp, ht]

/-- C2 witness: `ttl = 10` written at time `0`; `get` at `9999` ms still
sees the value, `get` at `10000` ms sees `null`. -/
theorem C2_ttl_expiry_boundary_witness :
    (Store.get ⟨"lsp", none⟩ jsonParse
        (Store.set ⟨"lsp", none⟩ jsonStringify ⟨[], []⟩ 0 "k" (.str "v")
          (some ⟨some 10⟩)) 9999 "k").fst = .val (.str "v")
    ∧ (Store.get ⟨"lsp", none⟩ jsonParse
        (Store.set ⟨"lsp", none⟩ jsonStringify ⟨[], []⟩ 0 "k" (.str "v")
          (some ⟨some 10⟩)) 10000 "k").fst = .val .null :=
  ⟨(C2_ttl_expiry_boundary ⟨"lsp", none⟩ ⟨[], []⟩ 0 10 (by norm_num) "k"
      (.str "v") 9999).1 (by norm_num),
   (C2_ttl_expiry_boundary ⟨"lsp", none⟩ ⟨[], []⟩ 0 10 (by norm_num) "k"
      (.str "v") 10000).2 (by norm_num) (by norm_num)⟩

/-- C5: for every `set(k, v, options)` call, the stored payload carries an
`expiresAt` field iff the effective TTL (per-call ttl, else default) is
strictly positive — absent, zero or negative TTLs give a payload with no
`expiresAt` — and such a payload is treated by `get` as never expiring
(the value is returned at every later time). -/
theorem C5_expiresAt_iff_positive_ttl (cfg : Config) (st : StoreState) (now : Int)
    (key : String) (value : Json) (setOptions : Option SetOptions) :
    (memGet (Store.set cfg jsonStringify st now key value setOptions).backend
        (makeKey cfg.ns key)
      = some (jsonStringify
          (encodePayload value (effectiveTTL setOptions cfg.defaultTTL) now).toJson))
    ∧ ((encodePayload value (effectiveTTL setOptions cfg.defaultTTL) now).expiresAt.isSome
        ↔ ∃ T, effectiveTTL setOptions cfg.defaultTTL = some T ∧ 0 < T)
    ∧ ((encodePayload value (effectiveTTL setOptions cfg.defaultTTL) now).expiresAt = none →
        ∀ t : Int, (Store.get cfg jsonParse
          (Store.set cfg jsonStringify st now key value setOptions) t key).fst
          = .val value) := by
  refine ⟨by rw [set_backend, memGet_memSet_self], ?_, ?_⟩
  · cases heff : effectiveTTL setOptions cfg.defaultTTL with
    | none => simp [encodePayload]
    | some T =>
        by_cases hT : T ≠ 0 ∧ 0 < T
        · simp only [encodePayload, if_pos hT, Option.isSome_some, true_iff]
          exact ⟨T, rfl, hT.2⟩
        · simp only [encodePayload, if_neg hT]
          refine ⟨fun hh => absurd hh (by simp), ?_⟩
          rintro ⟨T', hTT, hpos⟩
          injection hTT with hEq
          exact (hT ⟨by omega, by omega⟩).elim
  · intro hnone t
    have hmem : memGet
        (Store.set cfg jsonStringify st now key value setOptions).backend
        (makeKey cfg.ns key) =
        some (jsonStringify
          (encodePayload value (effectiveTTL setOptions cfg.defaultTTL) now).toJson) := by
      rw [set_backend, memGet_memSet_self]
    have hget := get_stored cfg _ t key _ hmem
    have hexp : isExpired
        (encodePayload value (effectiveTTL setOptions cfg.defaultTTL) now).toJson t
        = false := by
      rw [isExpired_toJson, hnone]
    have hne : isExpired
        (encodePayload value (effectiveTTL setOptions cfg.defaultTTL) now).toJson t
        ≠ true := by
      rw [hexp]; exact Bool.false_ne_true
    rw [hget, if_neg hne]
    rfl

/-- C5 witness: with no per-call ttl and no default TTL, the stored
payload has no `expiresAt` and `get` still returns the value much
later. -/
theorem C5_expiresAt_iff_positive_ttl_witness :
    (Store.get ⟨"lsp", none⟩ jsonParse
        (Store.set ⟨"lsp", none⟩ jsonStringify ⟨[], []⟩ 0 "k" (.str "v") none)
        999999999 "k").fst = .val (.str "v") :=
  (C5_expiresAt_iff_positive_ttl ⟨"lsp", none⟩ ⟨[], []⟩ 0 "k" (.str "v")
    none).2.2 rfl 999999999

/-- C6: on a store configured with default TTL `D > 0`, `set(k, v)`
without a per-call ttl stores a payload expiring `D` seconds from the
write (`expiresAt = now + D*1000`); and a per-call `{ ttl: T }` — any
provided `T` — makes the effective TTL `T`, overriding the default. -/
theorem C6_default_ttl_override (ns : String) (D : Int) (hD : 0 < D)
    (st : StoreState) (now : Int) (key : String) (value : Json) :
    (memGet (Store.set ⟨ns, some D⟩ jsonStringify st now key value none).backend
        (makeKey ns key)
      = some (jsonStringify (StoredPayload.mk value (some (now + D * 1000))).toJson))
    ∧ (∀ T : Int, effectiveTTL (some ⟨some T⟩) (some D) = some T) := by
  constructor
  · have heff : effectiveTTL none (some D) = some D := rfl
    have : (Store.set ⟨ns, some D⟩ jsonStringify st now key value none).backend
        = memSet st.backend (makeKey ns key)
            (jsonStringify (StoredPayload.mk value (some (now + D * 1000))).toJson) := by
      rw [set_backend]
      simp only [heff, encode_pos_ttl value D now hD]
    rw [this, memGet_memSet_self]
  · intro T
    rfl

/-- C6 witness: default TTL `5` stamps `expiresAt = 5000` on a write at
time `0`; a per-call ttl `7` overrides the default. -/
theorem C6_default_ttl_override_witness :
    (memGet (Store.set ⟨"lsp", some 5⟩ jsonStringify ⟨[], []⟩ 0 "k" (.str "v")
        none).backend (makeKey "lsp" "k")
      = some (jsonStringify (StoredPayload.mk (.str "v") (some 5000)).toJson))
    ∧ effectiveTTL (some ⟨some 7⟩) (some 5) = some 7 :=
  ⟨(C6_default_ttl_override "lsp" 5 (by norm_num) ⟨[], []⟩ 0 "k" (.str "v")).1,
   (C6_default_ttl_override "lsp" 5 (by norm_num) ⟨[], []⟩ 0 "k" (.str "v")).2 7⟩

/-- C3 counterexample: the entry at the derived key holds the parseable
but shape-invalid string for the JSON object `{"a":1}` — not a valid
`StoredPayload` serialization — yet `get` returns the JS value
`undefined` (`payload.value` of an object without a `value` field), not
`null`: the source casts the parse result without a shape check. -/
theorem C3_shape_invalid_counterexample :
    isValidPayloadRaw (Raw.json (.obj [("a", .num 1)])) = false
    ∧ (Store.get ⟨"lsp", none⟩ jsonParse
        ⟨[(makeKey "lsp" "k", Raw.json (.obj [("a", .num 1)]))], []⟩ 0 "k").fst
        = .undef
    ∧ (Store.get ⟨"lsp", none⟩ jsonParse
        ⟨[(makeKey "lsp" "k", Raw.json (.obj [("a", .num 1)]))], []⟩ 0 "k").fst
        ≠ .val .null :=
  ⟨rfl, rfl, fun h => JsValue.noConfusion h⟩

/-- C3 amended: for every raw string the deserializer rejects (a string
`JSON.parse` cannot parse), `get` returns `null` without throwing and
leaves the backend unchanged; a string that parses to a shape-invalid
value also never throws, but `get` then returns the unvalidated
`payload.value` (possibly `undefined`) rather than `null`. -/
theorem C3_junk_get_null (cfg : Config) (st : StoreState) (now : Int)
    (key : String) (s : String)
    (h : memGet st.backend (makeKey cfg.ns key) = some (.junk s)) :
    (Store.get cfg jsonParse st now key).fst = .val .null
    ∧ (Store.get cfg jsonParse st now key).snd.backend = st.backend := by
  have hdec : decode jsonParse (memGet st.backend (makeKey cfg.ns key)) = .null := by
    rw [h, decode_junk]
  rw [Store.get]
  simp only [hdec]
  have hexp : isExpired Json.null now = false := rfl
  have htr : Json.truthy .null = false := rfl
  simp [hexp, htr]

/-- C3 amended witness: an unparseable string at the derived key makes
`get` return `null` and leaves the backend as it was. -/
theorem C3_junk_get_null_witness :
    (Store.get ⟨"lsp", none⟩ jsonParse
        ⟨[(makeKey "lsp" "k", Raw.junk "not-json!!!")], []⟩ 0 "k").fst = .val .null
    ∧ (Store.get ⟨"lsp", none⟩ jsonParse
        ⟨[(makeKey "lsp" "k", Raw.junk "not-json!!!")], []⟩ 0 "k").snd.backend
        = [(makeKey "lsp" "k", Raw.junk "not-json!!!")] :=
  C3_junk_get_null ⟨"lsp", none⟩
    ⟨[(makeKey "lsp" "k", Raw.junk "not-json!!!")], []⟩ 0 "k" "not-json!!!" rfl

/-- C7 counterexample: a stored payload with `expiresAt = 0` — an epoch
deadline at or before the current time `5` — is not deleted: `0` is falsy,
`isExpired` reports false, and `get` returns the value with the backend
entry left in place, against the claim's "removes … and returns null". -/
theorem C7_zero_expiresAt_counterexample :
    (Store.get ⟨"lsp", none⟩ jsonParse
        ⟨[(makeKey "lsp" "k",
           jsonStringify (StoredPayload.mk (.str "v") (some 0)).toJson)], []⟩
        5 "k").fst = .val (.str "v")
    ∧ (Store.get ⟨"lsp", none⟩ jsonParse
        ⟨[(makeKey "lsp" "k",
           jsonStringify (StoredPayload.mk (.str "v") (some 0)).toJson)], []⟩
        5 "k").snd.backend
      = [(makeKey "lsp" "k",
          jsonStringify (StoredPayload.mk (.str "v") (some 0)).toJson)] :=
  ⟨rfl, rfl⟩

/-- C7 amended: for every key whose stored payload has a truthy (nonzero)
`expiresAt` at or before the current time, `get` removes exactly the entry
at the derived StorageKey from the backend (that key reads back absent,
every other key is untouched), removes the StorageKey from TrackedKeys,
and returns `null`.  (A zero `expiresAt` is falsy and is treated as "no
expiry"; `set`, `remove` and `clear` never consult the clock, so this
`get` path is the only expiry enforcement.) -/
theorem C7_lazy_expiry_frame (cfg : Config) (st : StoreState) (now : Int)
    (key : String) (p : StoredPayload) (e : Int)
    (hmem : memGet st.backend (makeKey cfg.ns key)
      = some (jsonStringify p.toJson))
    (he : p.expiresAt = some e) (hnz : e ≠ 0) (hle : e ≤ now) :
    (Store.get cfg jsonParse st now key).fst = .val .null
    ∧ (Store.get cfg jsonParse st now key).snd.backend
        = memRemove st.backend (makeKey cfg.ns key)
    ∧ memGet (Store.get cfg jsonParse st now key).snd.backend
        (makeKey cfg.ns key) = none
    ∧ (∀ k', k' ≠ makeKey cfg.ns key →
        memGet (Store.get cfg jsonParse st now key).snd.backend k'
          = memGet st.backend k')
    ∧ (Store.get cfg jsonParse st now key).snd.tracked
        = trackedDelete st.tracked (makeKey cfg.ns key) := by
  have hget := get_stored cfg st now key p hmem
  have hexp : isExpired p.toJson now = true := by
    rw [isExpired_toJson, he]
    simp [hnz, hle]
  rw [if_pos hexp] at hget
  refine ⟨by rw [hget], by rw [hget], ?_, ?_, by rw [hget]⟩
  · rw [hget]
    exact memGet_memRemove_self st.backend (makeKey cfg.ns key)
  · intro k' hk'
    rw [hget]
    exact memGet_memRemove_ne st.backend (makeKey cfg.ns key) k' hk'

/-- C7 amended witness: an entry with `expiresAt = 3 ≤ 5` alongside an
unrelated entry; `get` at time `5` deletes exactly the expired entry,
drops it from TrackedKeys, and returns `null`. -/
theorem C7_lazy_expiry_frame_witness :
    (Store.get ⟨"lsp", none⟩ jsonParse
        ⟨[(makeKey "lsp" "k", jsonStringify (StoredPayload.mk (.str "v") (some 3)).toJson),
          ("other", Raw.junk "x")], [makeKey "lsp" "k"]⟩ 5 "k").fst = .val .null
    ∧ memGet (Store.get ⟨"lsp", none⟩ jsonParse
        ⟨[(makeKey "lsp" "k", jsonStringify (StoredPayload.mk (.str "v") (some 3)).toJson),
          ("other", Raw.junk "x")], [makeKey "lsp" "k"]⟩ 5 "k").snd.backend
        (makeKey "lsp" "k") = none
    ∧ memGet (Store.get ⟨"lsp", none⟩ jsonParse
        ⟨[(makeKey "lsp" "k", jsonStringify (StoredPayload.mk (.str "v") (some 3)).toJson),
          ("other", Raw.junk "x")], [makeKey "lsp" "k"]⟩ 5 "k").snd.backend
        "other" = some (Raw.junk "x") := by
  have h := C7_lazy_expiry_frame ⟨"lsp", none⟩
    ⟨[(makeKey "lsp" "k", jsonStringify (StoredPayload.mk (.str "v") (some 3)).toJson),
      ("other", Raw.junk "x")], [makeKey "lsp" "k"]⟩ 5 "k"
    (StoredPayload.mk (.str "v") (some 3)) 3 rfl rfl (by norm_num) (by norm_num)
  refine ⟨h.1, h.2.2.1, ?_⟩
  rw [h.2.2.2.1 "other" (by decide)]
  rfl

/-- The store constructed with `{ namespace: "a" }` (no default TTL). -/
def cfgA : Config := ⟨normalizeNamespace (some "a"), none⟩

/-- The store constructed with `{ namespace: "b" }` (no default TTL). -/
def cfgB : Config := ⟨normalizeNamespace (some "b"), none⟩

/-- C4: two stores with namespaces `"a"` and `"b"` over the same backend:
after each sets key `"x"`, `get("x")` on each store returns its own value
(never the other's); and `clear()` on store `a` leaves every backend key
that does not carry the `"a:"` marker — store `b`'s keys and
non-namespaced keys alike — exactly as it was. -/
theorem C4_namespace_isolation (b : MemStore) (trA trB : List String)
    (v1 v2 : Json) (now : Int) :
    ((Store.get cfgA jsonParse
        ⟨(Store.set cfgB jsonStringify
            ⟨(Store.set cfgA jsonStringify ⟨b, trA⟩ now "x" v1 none).backend, trB⟩
            now "x" v2 none).backend,
          (Store.set cfgA jsonStringify ⟨b, trA⟩ now "x" v1 none).tracked⟩
        now "x").fst = .val v1)
    ∧ ((Store.get cfgB jsonParse
        (Store.set cfgB jsonStringify
            ⟨(Store.set cfgA jsonStringify ⟨b, trA⟩ now "x" v1 none).backend, trB⟩
            now "x" v2 none)
        now "x").fst = .val v2)
    ∧ (∀ (st : StoreState) (k' : String), ¬ strStartsWith k' (cfgA.ns ++ ":") →
        memGet (Store.clear cfgA true st).backend k' = memGet st.backend k') := by
  refine ⟨?_, set_get_same_time cfgB _ now "x" v2 none, ?_⟩
  · have hne : makeKey cfgA.ns "x" ≠ makeKey cfgB.ns "x" := by decide
    have hmem1 : memGet (Store.set cfgB jsonStringify
        ⟨(Store.set cfgA jsonStringify ⟨b, trA⟩ now "x" v1 none).backend, trB⟩
        now "x" v2 none).backend (makeKey cfgA.ns "x")
        = some (jsonStringify
            (encodePayload v1 (effectiveTTL none cfgA.defaultTTL) now).toJson) := by
      rw [set_backend, memGet_memSet_ne _ _ _ _ hne, set_backend, memGet_memSet_self]
    have hget := get_stored cfgA
      ⟨(Store.set cfgB jsonStringify
          ⟨(Store.set cfgA jsonStringify ⟨b, trA⟩ now "x" v1 none).backend, trB⟩
          now "x" v2 none).backend,
        (Store.set cfgA jsonStringify ⟨b, trA⟩ now "x" v1 none).tracked⟩
      now "x" _ hmem1
    have hne2 : isExpired
        (encodePayload v1 (effectiveTTL none cfgA.defaultTTL) now).toJson now ≠ true := by
      rw [isExpired_encode_now]; exact Bool.false_ne_true
    rw [hget, if_neg hne2]
    rfl
  · intro st k' hk'
    have hnotin : k' ∉ (memKeys st.backend).filter
        (fun k => (k != "") && strStartsWith k (cfgA.ns ++ ":")) := by
      intro hin
      have hcond := (List.mem_filter.mp hin).2
      simp only [Bool.and_eq_true] at hcond
      exact hk' hcond.2
    show memGet (Store.clear cfgA true st).backend k' = memGet st.backend k'
    rw [Store.clear]
    simp only [not_true, if_neg (by simp : ¬¬(true : Bool) = true)]
    exact memGet_foldl_memRemove _ st.backend k' hnotin

/-- C4 witness: concrete values in namespaces `a` and `b` stay separate,
and `clear()` on store `a` preserves `"b:x"` and the non-namespaced key
`"plain"`. -/
theorem C4_namespace_isolation_witness :
    ((Store.get cfgA jsonParse
        ⟨(Store.set cfgB jsonStringify
            ⟨(Store.set cfgA jsonStringify ⟨[], []⟩ 0 "x" (.str "1") none).backend, []⟩
            0 "x" (.str "2") none).backend,
          (Store.set cfgA jsonStringify ⟨[], []⟩ 0 "x" (.str "1") none).tracked⟩
        0 "x").fst = .val (.str "1"))
    ∧ ((Store.get cfgB jsonParse
        (Store.set cfgB jsonStringify
            ⟨(Store.set cfgA jsonStringify ⟨[], []⟩ 0 "x" (.str "1") none).backend, []⟩
            0 "x" (.str "2") none)
        0 "x").fst = .val (.str "2"))
    ∧ memGet (Store.clear cfgA true
        ⟨[("b:x", Raw.junk "w"), ("plain", Raw.junk "p")], []⟩).backend "b:x"
        = some (Raw.junk "w")
    ∧ memGet (Store.clear cfgA true
        ⟨[("b:x", Raw.junk "w"), ("plain", Raw.junk "p")], []⟩).backend "plain"
        = some (Raw.junk "p") := by
  have h := C4_namespace_isolation [] [] [] (.str "1") (.str "2") 0
  refine ⟨h.1, h.2.1, ?_, ?_⟩
  · rw [h.2.2 ⟨[("b:x", Raw.junk "w"), ("plain", Raw.junk "p")], []⟩ "b:x" (by decide)]
    rfl
  · rw [h.2.2 ⟨[("b:x", Raw.junk "w"), ("plain", Raw.junk "p")], []⟩ "plain" (by decide)]
    rfl

/-- C8: any candidate backend whose probe fails (`setItem` or
`removeItem` throws on the reserved probe key) is discarded without an
error: `resolveStorage` substitutes a fresh empty in-memory backend and
reports the fallback flag `true`; the flag is `true` only in this path
(a passing probe reports `false`); and on the substituted in-memory
backend `set(k, v)` followed by `get(k)` serves `v` back. -/
theorem C8_fallback_transparency {σ : Type} (f : FStorage σ) (s : σ)
    (h : isStorageUsable f s = false) :
    resolveStorage f s = (.memory [], true)
    ∧ (∀ (τ : Type) (g : FStorage τ) (t : τ),
        (resolveStorage g t).snd = true → isStorageUsable g t = false)
    ∧ (∀ (cfg : Config) (now : Int) (k : String) (v : Json),
        (Store.get cfg jsonParse
          (Store.set cfg jsonStringify ⟨[], []⟩ now k v none) now k).fst = .val v) := by
  have hnone : probeRun f s = none := by
    rw [isStorageUsable] at h
    exact Option.not_isSome_iff_eq_none.mp (by simp [h])
  refine ⟨by rw [resolveStorage, hnone], ?_, ?_⟩
  · intro τ g t ht
    rw [isStorageUsable]
    rw [resolveStorage] at ht
    cases hp : probeRun g t with
    | none => rfl
    | some s' => rw [hp] at ht; simp at ht
  · intro cfg now k v
    exact set_get_same_time cfg ⟨[], []⟩ now k v none

/-- A candidate backend whose every method throws. -/
def alwaysThrowStorage : FStorage Unit :=
  ⟨fun _ _ _ => none, fun _ _ => none⟩

/-- C8 witness: the always-throwing backend fails the probe, is replaced
by the fresh in-memory backend with the fallback flag set, and a
`set`/`get` round trip on that substitute serves the value. -/
theorem C8_fallback_transparency_witness :
    resolveStorage alwaysThrowStorage () = (.memory [], true)
    ∧ (Store.get ⟨"lsp", none⟩ jsonParse
        (Store.set ⟨"lsp", none⟩ jsonStringify ⟨[], []⟩ 0 "k" (.str "v") none)
        0 "k").fst = .val (.str "v") :=
  ⟨(C8_fallback_transparency alwaysThrowStorage () rfl).1,
   (C8_fallback_transparency alwaysThrowStorage () rfl).2.2 ⟨"lsp", none⟩ 0 "k" (.str "v")⟩

/-- C9: when the configured serializer throws on the encoded payload of a
value, `set` propagates that error to the caller — and since the
exception fires before `setItem` and before the key is tracked, the
backend and the TrackedKeys set are left exactly as they were. -/
theorem C9_serializer_error_propagates (cfg : Config)
    (serialize : Json → Except String Raw) (st : StoreState) (now : Int)
    (key : String) (value : Json) (setOptions : Option SetOptions) (e : String)
    (h : serialize
        (encodePayload value (effectiveTTL setOptions cfg.defaultTTL) now).toJson
        = .error e) :
    Store.setFallible cfg serialize st now key value setOptions = (some e, st) := by
  rw [Store.setFallible]
  simp only [h]

/-- A serializer that rejects every value (as the JSON codec does on
cyclic structures). -/
def failingSerializer : Json → Except String Raw :=
  fun _ => .error "cyclic"

/-- C9 witness: the failing serializer makes `set` surface the error and
return the state unchanged. -/
theorem C9_serializer_error_propagates_witness :
    Store.setFallible ⟨"lsp", none⟩ failingSerializer
        ⟨[("z", Raw.junk "w")], ["z"]⟩ 0 "k" (.str "v") none
      = (some "cyclic", ⟨[("z", Raw.junk "w")], ["z"]⟩) :=
  C9_serializer_error_propagates ⟨"lsp", none⟩ failingSerializer
    ⟨[("z", Raw.junk "w")], ["z"]⟩ 0 "k" (.str "v") none "cyclic" rfl

/-- C10: a non-empty namespace consisting only of separator characters
normalizes to the empty string — not the default `"lsp"` — so that
store's StorageKeys all have the form `":" ++ key`; the default `"lsp"`
is substituted exactly for an absent or empty namespace, and every
non-empty namespace is only stripped of its trailing colons. -/
theorem C10_namespace_normalization :
    (∀ s : String, s ≠ "" → (∀ c ∈ s.toList, c = ':') →
      normalizeNamespace (some s) = ""
      ∧ ∀ k : String, makeKey (normalizeNamespace (some s)) k = ":" ++ k)
    ∧ normalizeNamespace none = "lsp"
    ∧ normalizeNamespace (some "") = "lsp"
    ∧ (∀ s : String, s ≠ "" → normalizeNamespace (some s) = stripTrailingColons s) := by
  have hstrip : ∀ s : String, (∀ c ∈ s.toList, c = ':') →
      stripTrailingColons s = "" := by
    intro s hc
    rw [stripTrailingColons]
    have : s.toList.reverse.dropWhile (· == ':') = [] := by
      rw [List.dropWhile_eq_nil_iff]
      intro x hx
      simp [hc x (List.mem_reverse.mp hx)]
    rw [this]
    rfl
  refine ⟨?_, rfl, rfl, ?_⟩
  · intro s hs hc
    have hn : normalizeNamespace (some s) = "" := by
      rw [normalizeNamespace]
      rw [if_neg hs, hstrip s hc]
    exact ⟨hn, fun k => by rw [makeKey, hn]; rfl⟩
  · intro s hs
    rw [normalizeNamespace, if_neg hs]

/-- C10 witness: the namespace `":"` normalizes to `""`, its StorageKey
for `"x"` is `":x"`, and the defaults hold. -/
theorem C10_namespace_normalization_witness :
    normalizeNamespace (some ":") = ""
    ∧ makeKey (normalizeNamespace (some ":")) "x" = ":x"
    ∧ normalizeNamespace (some "lsp:::") = stripTrailingColons "lsp:::" :=
  ⟨(C10_namespace_normalization.1 ":" (by decide) (by decide)).1,
   (C10_namespace_normalization.1 ":" (by decide) (by decide)).2 "x",
   C10_namespace_normalization.2.2.2 "lsp:::" (by decide)⟩

end StashKit
